import Mathlib

/-!
Verification of the pool-enumeration-and-normalization routine
(`query_balanced_pool_data` in
`icon_python_tutorials/projects/3_how-to-make-a-smart-contract-call/main.py`,
duplicated in project 2).

Modelling conventions:
* A Python dict is an association list `Record = List (String × Value)` in
  insertion order; lookup takes the first matching key, assignment replaces
  the value at an existing key in place (appending when the key is absent,
  as Python dicts do).
* A field value is a plain string, a Python `int` (arbitrary precision, so
  `Int`), or the result of Python's true division `/`.  The spec (§4.1)
  allows division to produce "a real (floating-point or arbitrary-precision
  decimal) value", so division results are modelled exactly, as `ℚ`.
* Exceptions are values of `Exc`; fallible steps return `Except Exc _`.
  `Exc.jsonRpc` stands for the SDK's `JSONRPCException`, the class the loop's
  `except` clause catches; it is how the query interface signals the spec's
  `NotFound` condition.  Every other exception kind propagates.
* The contract-query capability (`call(contract, "getPoolStats", {_id: id})`)
  is an external network effect; it is modelled as a parameter
  `query : Nat → Except Exc Record`.  The loop `while True: ...` need not
  terminate when `query` never fails, so the scan takes a fuel parameter and
  returns `none` when the fuel runs out before the loop exits.
-/

namespace Tutorial

/-- A Python value stored in a pool record: a string, an `int`, or a real
number produced by true division (modelled exactly as a rational). -/
inductive Value where
  | vStr (s : String)
  | vInt (n : Int)
  | vRat (q : ℚ)
deriving DecidableEq

/-- Exception kinds the modelled code can raise or receive.  `jsonRpc` is
`JSONRPCException` (the "pool ID does not exist" signal, caught by the loop);
`typeError`, `valueError` and `keyError` are the built-in Python exceptions
raised by the normalization arithmetic; `other` covers any further exception
kind a query capability may raise (network failure, decoding failure, ...). -/
inductive Exc where
  | jsonRpc
  | typeError
  | valueError
  | keyError (k : String)
  | other (s : String)
deriving DecidableEq

/-- A pool record: a Python dict in insertion order. -/
abbrev Record := List (String × Value)

/-- First-match lookup, `r[k]` read access / `k in r`. -/
def getVal? : Record → String → Option Value
  | [], _ => none
  | (k', v) :: r, k => if k' = k then some v else getVal? r k

/-- Dict assignment `r[k] = v`: replaces the value at the first occurrence of
`k`, appends the pair when `k` is absent. -/
def updateRec : Record → String → Value → Record
  | [], k, v => [(k, v)]
  | (k', v') :: r, k, v =>
    if k' = k then (k, v) :: r else (k', v') :: updateRec r k v

/-- `result[k]` as an expression: raises `KeyError` when the key is absent. -/
def getItem (r : Record) (k : String) : Except Exc Value :=
  match getVal? r k with
  | some v => .ok v
  | none => .error (.keyError k)

/-- Value of one hexadecimal digit, as accepted by Python's `int(·, 16)`. -/
def hexDigitVal? (c : Char) : Option Nat :=
  if '0' ≤ c ∧ c ≤ '9' then some (c.toNat - '0'.toNat)
  else if 'a' ≤ c ∧ c ≤ 'f' then some (c.toNat - 'a'.toNat + 10)
  else if 'A' ≤ c ∧ c ≤ 'F' then some (c.toNat - 'A'.toNat + 10)
  else none

/-- Accumulating base-16 evaluation of a digit string; `none` on the first
character that is not a hexadecimal digit. -/
def hexVal : List Char → Nat → Option Nat
  | [], acc => some acc
  | c :: cs, acc =>
    match hexDigitVal? c with
    | some d => hexVal cs (16 * acc + d)
    | none => none

/-- Python's `s.startswith("0x")`. -/
def startsWith0x (s : String) : Bool :=
  match s.data with
  | '0' :: 'x' :: _ => true
  | _ => false

/-- Python's `int(s, 16)` on a string that begins with the literal prefix
`"0x"`: the value of the hexadecimal digits after the prefix, `none`
(a `ValueError`) when no digits follow or a non-hex character appears.
(The model covers the canonical strings the query interface returns; it does
not reproduce `int`'s tolerance for underscore separators or surrounding
whitespace.) -/
def parseHex0x (s : String) : Option Nat :=
  match s.data with
  | '0' :: 'x' :: rest => if rest = [] then none else hexVal rest 0
  | _ => none

/-- One iteration of the hex-conversion loop body on a single value:
```
try:
    if v.startswith("0x"):
        result[k] = int(v, 16)
except AttributeError:
    pass
```
A non-string value has no `.startswith`, so the `AttributeError` is caught
and the value is left unchanged; a `ValueError` from `int(v, 16)` is *not*
caught and propagates. -/
def parseField (v : Value) : Except Exc Value :=
  match v with
  | .vStr s =>
    if startsWith0x s then
      match parseHex0x s with
      | some n => .ok (.vInt (n : Int))
      | none => .error .valueError
    else .ok (.vStr s)
  | v => .ok v

/-- The whole hex-conversion loop `for k, v in result.items(): ...` over the
record in insertion order. -/
def parseFields : Record → Except Exc Record
  | [] => .ok []
  | (k, v) :: r => do
    let v' ← parseField v
    let r' ← parseFields r
    .ok ((k, v') :: r')

/-- The per-field transform performed by the hex-conversion loop in the case
where it does not raise: a string with the `0x` prefix becomes its base-16
integer parse, everything else is unchanged.  (Used to state what a
successful `parseFields` run produces.) -/
def hexParseField (v : Value) : Value :=
  match v with
  | .vStr s =>
    if startsWith0x s then
      match parseHex0x s with
      | some n => .vInt (n : Int)
      | none => .vStr s
    else .vStr s
  | v => v

/-- `true` iff the value cannot make the hex-conversion loop raise: it is not
a `0x`-prefixed string whose digits fail to parse. -/
def fieldHexOK (v : Value) : Bool :=
  match v with
  | .vStr s => !startsWith0x s || (parseHex0x s).isSome
  | _ => true

/-- `true` iff no field of the record makes the hex-conversion loop raise. -/
def goodHex (r : Record) : Bool :=
  r.all fun p => fieldHexOK p.2

/-- `true` iff every value of the record is a string or an `int` — the value
domain of raw records delivered by the query interface (spec §3: raw numeric
fields are hexadecimal strings, non-numeric fields are plain strings). -/
def wellTyped (r : Record) : Bool :=
  r.all fun p =>
    match p.2 with
    | .vRat _ => false
    | _ => true

/-- Numeric view of a value, for Python arithmetic. -/
def Value.toRat? : Value → Option ℚ
  | .vInt n => some (n : ℚ)
  | .vRat q => some q
  | .vStr _ => none

/-- Python subtraction `a - b`: defined on numbers (`int - int` is an `int`,
any operand being a float makes the result a float), `TypeError` when either
operand is a string. -/
def pySub (a b : Value) : Except Exc Value :=
  match a, b with
  | .vInt m, .vInt n => .ok (.vInt (m - n))
  | a, b =>
    match a.toRat?, b.toRat? with
    | some x, some y => .ok (.vRat (x - y))
    | _, _ => .error .typeError

/-- Python addition of an `int` literal, `a + n`. -/
def pyAddInt (a : Value) (n : Int) : Except Exc Value :=
  match a with
  | .vInt m => .ok (.vInt (m + n))
  | .vRat q => .ok (.vRat (q + (n : ℚ)))
  | .vStr _ => .error .typeError

/-- Value of one decimal digit. -/
def decDigitVal? (c : Char) : Option Nat :=
  if '0' ≤ c ∧ c ≤ '9' then some (c.toNat - '0'.toNat) else none

/-- Accumulating base-10 evaluation of a digit string. -/
def decVal : List Char → Nat → Option Nat
  | [], acc => some acc
  | c :: cs, acc =>
    match decDigitVal? c with
    | some d => decVal cs (10 * acc + d)
    | none => none

/-- Truncation toward zero, Python's `int(float)`. -/
def ratTrunc (q : ℚ) : Int :=
  q.num.tdiv (q.den : Int)

/-- Parse of an optionally signed canonical decimal digit string. -/
def parseDecSigned (cs : List Char) : Option Int :=
  match cs with
  | '-' :: ds =>
    if ds = [] then none else (decVal ds 0).map fun n => -(n : Int)
  | ds =>
    if ds = [] then none else (decVal ds 0).map fun n => ((n : Int))

/-- Python's `int(x)`: identity on `int`s, truncation toward zero on floats,
base-10 parse on strings (canonical decimal strings, optionally signed),
`ValueError` on an unparsable string. -/
def pyInt (v : Value) : Except Exc Int :=
  match v with
  | .vInt n => .ok n
  | .vRat q => .ok (ratTrunc q)
  | .vStr s =>
    match parseDecSigned s.data with
    | some n => .ok n
    | none => .error .valueError

/-- Python's `10 ** e` for the looked-up decimals value `e`, as the exact
scaling factor.  An integer exponent gives `10^e` (an `int` for `e ≥ 0`, a
float for `e < 0`); a string exponent raises `TypeError`.  A float exponent
with nonzero fractional part would produce an irrational float, which the
exact model cannot represent and maps to `TypeError`; it is unreachable for
records delivered by the query interface, whose values are strings and
integers. -/
def pyPow10 (e : Value) : Except Exc ℚ :=
  match e with
  | .vInt n => .ok ((10 : ℚ) ^ n)
  | .vRat q => if q.den = 1 then .ok ((10 : ℚ) ^ q.num) else .error .typeError
  | .vStr _ => .error .typeError

/-- Python's true division `v / p` by a nonzero numeric scaling factor:
a number divided by `p` is the exact quotient, a string raises `TypeError`. -/
def pyDiv (v : Value) (p : ℚ) : Except Exc Value :=
  match v.toRat? with
  | some x => .ok (.vRat (x / p))
  | none => .error .typeError

/-- One scaling line `result[k] = result[k] / 10 ** e`, in Python's
evaluation order: look up `result[k]` (may raise `KeyError`), compute
`10 ** e`, divide, store back. -/
def scaleField (r : Record) (k : String) (e : Value) : Except Exc Record := do
  let v ← getItem r k
  let p ← pyPow10 e
  let v' ← pyDiv v p
  .ok (updateRec r k v')

/-- The normalization performed on each record inside the scan loop, lines
127–163 of the source: hex-convert every field, read the two decimals
fields, compute `precision = int((quote_decimals - base_decimals) + 18)`,
then scale `base`, `quote`, `price`, `min_quote`, `total_supply` in that
order. -/
def normalize (result : Record) : Except Exc Record := do
  let r ← parseFields result
  let base_decimals ← getItem r "base_decimals"
  let quote_decimals ← getItem r "quote_decimals"
  let d ← pySub quote_decimals base_decimals
  let s ← pyAddInt d 18
  let precision ← pyInt s
  let r ← scaleField r "base" base_decimals
  let r ← scaleField r "quote" quote_decimals
  let r ← scaleField r "price" (.vInt precision)
  let r ← scaleField r "min_quote" quote_decimals
  let r ← scaleField r "total_supply" quote_decimals
  .ok r

/-- The scan loop of `query_balanced_pool_data`, from pool ID `pid` with the
given fuel.  Returns `none` when the fuel is exhausted before the loop exits
(the `while True` loop need not terminate for an arbitrary capability);
otherwise returns the list of pool IDs passed to `query`, in the order the
calls were issued, together with the outcome: the accumulated pool list, or
the exception that propagated.  A `JSONRPCException` raised anywhere in the
loop body is caught and breaks the loop; any other exception propagates and
the accumulated records are discarded. -/
def scanAux (query : Nat → Except Exc Record) : Nat → Nat → Option (List Nat × Except Exc (List Record))
  | 0, _ => none
  | fuel + 1, pid =>
    match query pid with
    | .error e =>
      if e = .jsonRpc then some ([pid], .ok []) else some ([pid], .error e)
    | .ok result =>
      match normalize result with
      | .error e =>
        if e = .jsonRpc then some ([pid], .ok []) else some ([pid], .error e)
      | .ok nres =>
        match scanAux query fuel (pid + 1) with
        | none => none
        | some (tr, .ok pools) => some (pid :: tr, .ok (nres :: pools))
        | some (tr, .error e) => some (pid :: tr, .error e)

/-- `query_balanced_pool_data`, parametrized by the contract-query capability
(the spec's `scan_pools(query)`): starts at pool ID 1 and returns the
accumulated pool list or the propagated exception (`none` when the fuel runs
out first). -/
def query_balanced_pool_data (query : Nat → Except Exc Record) (fuel : Nat) :
    Option (Except Exc (List Record)) :=
  (scanAux query fuel 1).map Prod.snd

/-- The sequence of pool IDs a run passes to the query capability, in issue
order. -/
def queriedIds (query : Nat → Except Exc Record) (fuel : Nat) :
    Option (List Nat) :=
  (scanAux query fuel 1).map Prod.fst

/-- The raw record of the worked example in the source's comments
(lines 113–125). -/
def exampleRaw : Record :=
  [("base", .vStr "0x24401c4c0b0eaf0bd3736"),
   ("base_decimals", .vStr "0x12"),
   ("base_token", .vStr "cx2609b924e33ef00b648a409245c7ea394c467824"),
   ("min_quote", .vStr "0x8ac7230489e80000"),
   ("name", .vStr "sICX/bnUSD"),
   ("price", .vStr "0x2d49f768fb1b92d"),
   ("quote", .vStr "0x764cd19f995e96ea3948"),
   ("quote_decimals", .vStr "0x12"),
   ("quote_token", .vStr "cx88fd7df7ddff82f7cc735c871dc519838cb235bb"),
   ("total_supply", .vStr "0xdf8d79f78f8cd92da496")]

/-- The record after the hex-conversion loop (lines 136–147 of the source). -/
def exampleParsed : Record :=
  [("base", .vInt 2739005184334618003584822),
   ("base_decimals", .vInt 18),
   ("base_token", .vStr "cx2609b924e33ef00b648a409245c7ea394c467824"),
   ("min_quote", .vInt 10000000000000000000),
   ("name", .vStr "sICX/bnUSD"),
   ("price", .vInt 203963214704261421),
   ("quote", .vInt 558656302488526822979912),
   ("quote_decimals", .vInt 18),
   ("quote_token", .vStr "cx88fd7df7ddff82f7cc735c871dc519838cb235bb"),
   ("total_supply", .vInt 1055697505245356868084886)]

/-- The fully normalized record (lines 165–177 of the source), with the
division results written as exact quotients. -/
def exampleNormalized : Record :=
  [("base", .vRat (((2739005184334618003584822 : ℤ) : ℚ) / (10:ℚ) ^ (18:ℤ))),
   ("base_decimals", .vInt 18),
   ("base_token", .vStr "cx2609b924e33ef00b648a409245c7ea394c467824"),
   ("min_quote", .vRat (((10000000000000000000 : ℤ) : ℚ) / (10:ℚ) ^ (18:ℤ))),
   ("name", .vStr "sICX/bnUSD"),
   ("price", .vRat (((203963214704261421 : ℤ) : ℚ) / (10:ℚ) ^ (18:ℤ))),
   ("quote", .vRat (((558656302488526822979912 : ℤ) : ℚ) / (10:ℚ) ^ (18:ℤ))),
   ("quote_decimals", .vInt 18),
   ("quote_token", .vStr "cx88fd7df7ddff82f7cc735c871dc519838cb235bb"),
   ("total_supply", .vRat (((1055697505245356868084886 : ℤ) : ℚ) / (10:ℚ) ^ (18:ℤ)))]

/-- The list `[pid, pid+1, ..., pid+m-1]` of `m` consecutive pool IDs. -/
def poolIds (pid : Nat) : Nat → List Nat
  | 0 => []
  | m + 1 => pid :: poolIds (pid + 1) m

/-- A fake query capability: the fixed record `r` for IDs `1..N`, the
not-found signal (`JSONRPCException`) for every other ID. -/
def okThenNotFound (r : Record) (N : Nat) : Nat → Except Exc Record :=
  fun i => if i ≤ N then .ok r else .error .jsonRpc

/-- A fake query capability: the fixed record `r` for IDs `1..N`, the
exception `e` for every other ID. -/
def okThenFail (r : Record) (N : Nat) (e : Exc) : Nat → Except Exc Record :=
  fun i => if i ≤ N then .ok r else .error e

/-- A malformed record: the decimals field is a `0x`-prefixed string whose
digits do not parse as hexadecimal. -/
def badHexRecord : Record :=
  [("base_decimals", .vStr "0xZZ")]

/-- A record whose decimals fields are decimal strings without the `0x`
prefix, so that the hex-conversion loop leaves them unparsed. -/
def strDecimalsRecord : Record :=
  [("base_decimals", .vStr "18"), ("quote_decimals", .vInt 18)]

/-- A query capability that reports not-found immediately. -/
def emptyQueryA : Nat → Except Exc Record :=
  fun _ => .error .jsonRpc

/-- Another spelling of a capability that reports not-found immediately,
pointwise equal to `emptyQueryA` but not syntactically identical. -/
def emptyQueryB : Nat → Except Exc Record :=
  fun i => if i = i + 1 then .ok [] else .error .jsonRpc

end Tutorial

namespace Tutorial

@[simp] theorem ok_bind {α β : Type} (x : α) (f : α → Except Exc β) :
    (Except.ok x >>= f) = f x := rfl

@[simp] theorem error_bind {α β : Type} (e : Exc) (f : α → Except Exc β) :
    ((Except.error e : Except Exc α) >>= f) = Except.error e := rfl

theorem getVal?_updateRec_self (r : Record) (k : String) (v : Value) :
    getVal? (updateRec r k v) k = some v := by
  induction r with
  | nil => simp [updateRec, getVal?]
  | cons p r ih =>
    obtain ⟨k', v'⟩ := p
    by_cases h : k' = k
    · simp [updateRec, getVal?, h]
    · simp [updateRec, getVal?, h, ih]

theorem getVal?_updateRec_ne (r : Record) (k k' : String) (v : Value)
    (h : k' ≠ k) : getVal? (updateRec r k v) k' = getVal? r k' := by
  induction r with
  | nil => simp [updateRec, getVal?, Ne.symm h]
  | cons p r ih =>
    obtain ⟨k'', v''⟩ := p
    by_cases h2 : k'' = k
    · subst h2
      simp [updateRec, getVal?, Ne.symm h]
    · simp only [updateRec, if_neg h2, getVal?]
      by_cases h3 : k'' = k'
      · simp [h3]
      · simp [h3, ih]

theorem keys_updateRec {r : Record} {k : String} (v : Value)
    (h : ∃ w', getVal? r k = some w') :
    (updateRec r k v).map Prod.fst = r.map Prod.fst := by
  induction r with
  | nil => obtain ⟨w', hw⟩ := h; simp [getVal?] at hw
  | cons p r ih =>
    obtain ⟨k'', v''⟩ := p
    by_cases h2 : k'' = k
    · simp [updateRec, if_pos h2, h2]
    · simp only [updateRec, if_neg h2, List.map_cons]
      obtain ⟨w', hw⟩ := h
      simp only [getVal?, if_neg h2] at hw
      rw [ih ⟨w', hw⟩]

theorem getVal?_map (f : Value → Value) (r : Record) (k : String) :
    getVal? (r.map fun p => (p.1, f p.2)) k = (getVal? r k).map f := by
  induction r with
  | nil => simp [getVal?]
  | cons p r ih =>
    obtain ⟨k', v'⟩ := p
    by_cases h : k' = k
    · simp [getVal?, h]
    · simp [getVal?, h, ih]

theorem parseFields_ok_of_goodHex {r : Record} (h : goodHex r = true) :
    parseFields r = .ok (r.map fun p => (p.1, hexParseField p.2)) := by
  induction r with
  | nil => rfl
  | cons p r ih =>
    obtain ⟨k, v⟩ := p
    simp only [goodHex, List.all_cons, Bool.and_eq_true] at h
    obtain ⟨hv, hr⟩ := h
    have hrest := ih hr
    simp only [parseFields, List.map_cons, hrest, ok_bind]
    match v, hv with
    | .vStr s, hv =>
      simp only [fieldHexOK] at hv
      by_cases h0 : startsWith0x s
      · simp only [h0, Bool.not_true, Bool.false_or] at hv
        obtain ⟨n, hn⟩ := Option.isSome_iff_exists.mp hv
        simp [parseField, hexParseField, h0, hn]
      · simp [parseField, hexParseField, h0]
    | .vInt n, _ => simp [parseField, hexParseField]
    | .vRat q, _ => simp [parseField, hexParseField]

theorem parseFields_ok_inv {r r' : Record} (h : parseFields r = .ok r') :
    goodHex r = true ∧ r' = r.map fun p => (p.1, hexParseField p.2) := by
  induction r generalizing r' with
  | nil =>
    simp only [parseFields] at h
    cases h
    exact ⟨rfl, rfl⟩
  | cons p r ih =>
    obtain ⟨k, v⟩ := p
    simp only [parseFields] at h
    cases hv : parseField v with
    | error e => rw [hv] at h; simp at h
    | ok v' =>
      rw [hv] at h
      simp only [ok_bind] at h
      cases hr : parseFields r with
      | error e => rw [hr] at h; simp at h
      | ok r'' =>
        rw [hr] at h
        simp only [ok_bind] at h
        cases h
        obtain ⟨hg, hmap⟩ := ih hr
        have hfield : fieldHexOK v = true ∧ v' = hexParseField v := by
          match v, hv with
          | .vStr s, hv =>
            by_cases h0 : startsWith0x s
            · cases hp : parseHex0x s with
              | none => simp [parseField, h0, hp] at hv
              | some n =>
                simp only [parseField, h0, if_true, hp] at hv
                cases hv
                simp [fieldHexOK, hexParseField, h0, hp]
            · simp only [parseField, h0] at hv
              simp only [if_neg, Bool.false_eq_true] at hv
              cases hv
              simp [fieldHexOK, hexParseField, h0]
          | .vInt n, hv =>
            simp only [parseField] at hv
            cases hv
            simp [fieldHexOK, hexParseField]
          | .vRat q, hv =>
            simp only [parseField] at hv
            cases hv
            simp [fieldHexOK, hexParseField]
        refine ⟨?_, ?_⟩
        · simp only [goodHex, List.all_cons, Bool.and_eq_true]
          exact ⟨hfield.1, hg⟩
        · simp [hfield.2, hmap]

theorem parseFields_error_inv {r : Record} {e : Exc}
    (h : parseFields r = .error e) : e = .valueError := by
  induction r generalizing e with
  | nil => simp [parseFields] at h
  | cons p r ih =>
    obtain ⟨k, v⟩ := p
    simp only [parseFields] at h
    cases hv : parseField v with
    | error e' =>
      rw [hv] at h
      simp only [error_bind, Except.error.injEq] at h
      subst h
      match v, hv with
      | .vStr s, hv =>
        by_cases h0 : startsWith0x s
        · cases hp : parseHex0x s with
          | none => simp [parseField, h0, hp] at hv; exact hv.symm
          | some n => simp [parseField, h0, hp] at hv
        · simp [parseField, h0] at hv
      | .vInt n, hv => simp [parseField] at hv
      | .vRat q, hv => simp [parseField] at hv
    | ok v' =>
      rw [hv] at h
      simp only [ok_bind] at h
      cases hr : parseFields r with
      | error e' =>
        rw [hr] at h
        simp only [error_bind, Except.error.injEq] at h
        subst h
        exact ih hr
      | ok r'' => rw [hr] at h; simp at h

end Tutorial

namespace Tutorial

theorem getItem_error_inv {r : Record} {k : String} {e : Exc}
    (h : getItem r k = .error e) : e = .keyError k := by
  unfold getItem at h
  cases hv : getVal? r k with
  | some v => rw [hv] at h; simp at h
  | none =>
    rw [hv] at h
    simp only [Except.error.injEq] at h
    exact h.symm

theorem getItem_ok_inv {r : Record} {k : String} {v : Value}
    (h : getItem r k = .ok v) : getVal? r k = some v := by
  unfold getItem at h
  cases hv : getVal? r k with
  | some v' => rw [hv] at h; simp only [Except.ok.injEq] at h; rw [h]
  | none => rw [hv] at h; simp at h

theorem pySub_error_inv {a b : Value} {e : Exc}
    (h : pySub a b = .error e) : e = .typeError := by
  cases a <;> cases b <;> simp_all [pySub, Value.toRat?]

theorem pyAddInt_error_inv {a : Value} {n : Int} {e : Exc}
    (h : pyAddInt a n = .error e) : e = .typeError := by
  cases a <;> simp_all [pyAddInt]

theorem pyInt_error_inv {v : Value} {e : Exc}
    (h : pyInt v = .error e) : e = .valueError := by
  unfold pyInt at h
  repeat' split at h
  all_goals simp_all

theorem pyPow10_error_inv {v : Value} {e : Exc}
    (h : pyPow10 v = .error e) : e = .typeError := by
  unfold pyPow10 at h
  repeat' split at h
  all_goals simp_all

theorem pyDiv_error_inv {v : Value} {p : ℚ} {e : Exc}
    (h : pyDiv v p = .error e) : e = .typeError := by
  unfold pyDiv at h
  repeat' split at h
  all_goals simp_all

theorem scaleField_error_inv {r : Record} {k : String} {ev : Value} {e : Exc}
    (h : scaleField r k ev = .error e) : e = .keyError k ∨ e = .typeError := by
  unfold scaleField at h
  cases hg : getItem r k with
  | error e' =>
    rw [hg] at h
    simp only [error_bind, Except.error.injEq] at h
    subst h
    exact Or.inl (getItem_error_inv hg)
  | ok v =>
    rw [hg] at h
    simp only [ok_bind] at h
    cases hp : pyPow10 ev with
    | error e' =>
      rw [hp] at h
      simp only [error_bind, Except.error.injEq] at h
      subst h
      exact Or.inr (pyPow10_error_inv hp)
    | ok p =>
      rw [hp] at h
      simp only [ok_bind] at h
      cases hd : pyDiv v p with
      | error e' =>
        rw [hd] at h
        simp only [error_bind, Except.error.injEq] at h
        subst h
        exact Or.inr (pyDiv_error_inv hd)
      | ok v' => rw [hd] at h; simp at h

theorem scaleField_ok_inv {r : Record} {k : String} {ev : Value} {R : Record}
    (h : scaleField r k ev = .ok R) :
    ∃ v p v', getItem r k = .ok v ∧ pyPow10 ev = .ok p ∧
      pyDiv v p = .ok v' ∧ R = updateRec r k v' := by
  unfold scaleField at h
  cases hg : getItem r k with
  | error e' => rw [hg] at h; simp at h
  | ok v =>
    rw [hg] at h
    simp only [ok_bind] at h
    cases hp : pyPow10 ev with
    | error e' => rw [hp] at h; simp at h
    | ok p =>
      rw [hp] at h
      simp only [ok_bind] at h
      cases hd : pyDiv v p with
      | error e' => rw [hd] at h; simp at h
      | ok v' =>
        rw [hd] at h
        simp only [ok_bind, Except.ok.injEq] at h
        exact ⟨v, p, v', rfl, rfl, hd, h.symm⟩

end Tutorial

namespace Tutorial

theorem normalize_ok_inv {r R : Record} (h : normalize r = .ok R) :
    ∃ r1 bd qd d s prec R1 R2 R3 R4,
      parseFields r = .ok r1 ∧
      getItem r1 "base_decimals" = .ok bd ∧
      getItem r1 "quote_decimals" = .ok qd ∧
      pySub qd bd = .ok d ∧
      pyAddInt d 18 = .ok s ∧
      pyInt s = .ok prec ∧
      scaleField r1 "base" bd = .ok R1 ∧
      scaleField R1 "quote" qd = .ok R2 ∧
      scaleField R2 "price" (.vInt prec) = .ok R3 ∧
      scaleField R3 "min_quote" qd = .ok R4 ∧
      scaleField R4 "total_supply" qd = .ok R := by
  unfold normalize at h
  cases h1 : parseFields r with
  | error e => rw [h1] at h; simp at h
  | ok r1 =>
  rw [h1] at h
  simp only [ok_bind] at h
  cases h2 : getItem r1 "base_decimals" with
  | error e => rw [h2] at h; simp at h
  | ok bd =>
  rw [h2] at h
  simp only [ok_bind] at h
  cases h3 : getItem r1 "quote_decimals" with
  | error e => rw [h3] at h; simp at h
  | ok qd =>
  rw [h3] at h
  simp only [ok_bind] at h
  cases h4 : pySub qd bd with
  | error e => rw [h4] at h; simp at h
  | ok d =>
  rw [h4] at h
  simp only [ok_bind] at h
  cases h5 : pyAddInt d 18 with
  | error e => rw [h5] at h; simp at h
  | ok s =>
  rw [h5] at h
  simp only [ok_bind] at h
  cases h6 : pyInt s with
  | error e => rw [h6] at h; simp at h
  | ok prec =>
  rw [h6] at h
  simp only [ok_bind] at h
  cases h7 : scaleField r1 "base" bd with
  | error e => rw [h7] at h; simp at h
  | ok R1 =>
  rw [h7] at h
  simp only [ok_bind] at h
  cases h8 : scaleField R1 "quote" qd with
  | error e => rw [h8] at h; simp at h
  | ok R2 =>
  rw [h8] at h
  simp only [ok_bind] at h
  cases h9 : scaleField R2 "price" (.vInt prec) with
  | error e => rw [h9] at h; simp at h
  | ok R3 =>
  rw [h9] at h
  simp only [ok_bind] at h
  cases h10 : scaleField R3 "min_quote" qd with
  | error e => rw [h10] at h; simp at h
  | ok R4 =>
  rw [h10] at h
  simp only [ok_bind] at h
  cases h11 : scaleField R4 "total_supply" qd with
  | error e => rw [h11] at h; simp at h
  | ok R5 =>
  rw [h11] at h
  simp only [ok_bind, Except.ok.injEq] at h
  subst h
  exact ⟨r1, bd, qd, d, s, prec, R1, R2, R3, R4,
    rfl, h2, h3, h4, h5, h6, h7, h8, h9, h10, h11⟩

theorem normalize_error_not_jsonRpc {r : Record} {e : Exc}
    (h : normalize r = .error e) : e ≠ .jsonRpc := by
  unfold normalize at h
  cases h1 : parseFields r with
  | error e' =>
    rw [h1] at h
    simp only [error_bind, Except.error.injEq] at h
    subst h
    rw [parseFields_error_inv h1]
    simp
  | ok r1 =>
  rw [h1] at h
  simp only [ok_bind] at h
  cases h2 : getItem r1 "base_decimals" with
  | error e' =>
    rw [h2] at h
    simp only [error_bind, Except.error.injEq] at h
    subst h
    rw [getItem_error_inv h2]
    simp
  | ok bd =>
  rw [h2] at h
  simp only [ok_bind] at h
  cases h3 : getItem r1 "quote_decimals" with
  | error e' =>
    rw [h3] at h
    simp only [error_bind, Except.error.injEq] at h
    subst h
    rw [getItem_error_inv h3]
    simp
  | ok qd =>
  rw [h3] at h
  simp only [ok_bind] at h
  cases h4 : pySub qd bd with
  | error e' =>
    rw [h4] at h
    simp only [error_bind, Except.error.injEq] at h
    subst h
    rw [pySub_error_inv h4]
    simp
  | ok d =>
  rw [h4] at h
  simp only [ok_bind] at h
  cases h5 : pyAddInt d 18 with
  | error e' =>
    rw [h5] at h
    simp only [error_bind, Except.error.injEq] at h
    subst h
    rw [pyAddInt_error_inv h5]
    simp
  | ok s =>
  rw [h5] at h
  simp only [ok_bind] at h
  cases h6 : pyInt s with
  | error e' =>
    rw [h6] at h
    simp only [error_bind, Except.error.injEq] at h
    subst h
    rw [pyInt_error_inv h6]
    simp
  | ok prec =>
  rw [h6] at h
  simp only [ok_bind] at h
  cases h7 : scaleField r1 "base" bd with
  | error e' =>
    rw [h7] at h
    simp only [error_bind, Except.error.injEq] at h
    subst h
    rcases scaleField_error_inv h7 with h' | h' <;> rw [h'] <;> simp
  | ok R1 =>
  rw [h7] at h
  simp only [ok_bind] at h
  cases h8 : scaleField R1 "quote" qd with
  | error e' =>
    rw [h8] at h
    simp only [error_bind, Except.error.injEq] at h
    subst h
    rcases scaleField_error_inv h8 with h' | h' <;> rw [h'] <;> simp
  | ok R2 =>
  rw [h8] at h
  simp only [ok_bind] at h
  cases h9 : scaleField R2 "price" (.vInt prec) with
  | error e' =>
    rw [h9] at h
    simp only [error_bind, Except.error.injEq] at h
    subst h
    rcases scaleField_error_inv h9 with h' | h' <;> rw [h'] <;> simp
  | ok R3 =>
  rw [h9] at h
  simp only [ok_bind] at h
  cases h10 : scaleField R3 "min_quote" qd with
  | error e' =>
    rw [h10] at h
    simp only [error_bind, Except.error.injEq] at h
    subst h
    rcases scaleField_error_inv h10 with h' | h' <;> rw [h'] <;> simp
  | ok R4 =>
  rw [h10] at h
  simp only [ok_bind] at h
  cases h11 : scaleField R4 "total_supply" qd with
  | error e' =>
    rw [h11] at h
    simp only [error_bind, Except.error.injEq] at h
    subst h
    rcases scaleField_error_inv h11 with h' | h' <;> rw [h'] <;> simp
  | ok R5 =>
  rw [h11] at h
  simp at h

end Tutorial

namespace Tutorial

theorem getItem_of_getVal? {r : Record} {k : String} {v : Value}
    (h : getVal? r k = some v) : getItem r k = .ok v := by
  simp [getItem, h]

theorem scaleField_compute {r : Record} {k : String} {v : Int}
    (hv : getVal? r k = some (.vInt v)) (bd : Int) :
    scaleField r k (.vInt bd) =
      .ok (updateRec r k (.vRat ((v : ℚ) / (10:ℚ) ^ bd))) := by
  simp [scaleField, getItem, hv, pyPow10, pyDiv, Value.toRat?]

theorem normalize_compute {r r1 : Record} {bd qd b q p mq ts : ℤ}
    (hpf : parseFields r = .ok r1)
    (hbd : getVal? r1 "base_decimals" = some (.vInt bd))
    (hqd : getVal? r1 "quote_decimals" = some (.vInt qd))
    (hb : getVal? r1 "base" = some (.vInt b))
    (hq : getVal? r1 "quote" = some (.vInt q))
    (hp : getVal? r1 "price" = some (.vInt p))
    (hmq : getVal? r1 "min_quote" = some (.vInt mq))
    (hts : getVal? r1 "total_supply" = some (.vInt ts)) :
    normalize r =
      .ok (updateRec (updateRec (updateRec (updateRec (updateRec r1
        "base" (.vRat ((b : ℚ) / (10:ℚ) ^ bd)))
        "quote" (.vRat ((q : ℚ) / (10:ℚ) ^ qd)))
        "price" (.vRat ((p : ℚ) / (10:ℚ) ^ ((qd - bd) + 18))))
        "min_quote" (.vRat ((mq : ℚ) / (10:ℚ) ^ qd)))
        "total_supply" (.vRat ((ts : ℚ) / (10:ℚ) ^ qd))) := by
  unfold normalize
  rw [hpf]
  simp only [ok_bind]
  rw [getItem_of_getVal? hbd, getItem_of_getVal? hqd]
  simp only [ok_bind, pySub, pyAddInt, pyInt]
  rw [scaleField_compute hb]
  simp only [ok_bind]
  rw [scaleField_compute (v := q)
    (by rw [getVal?_updateRec_ne _ _ _ _ (by decide)]; exact hq)]
  simp only [ok_bind]
  rw [scaleField_compute (v := p)
    (by rw [getVal?_updateRec_ne _ _ _ _ (by decide),
            getVal?_updateRec_ne _ _ _ _ (by decide)]; exact hp)]
  simp only [ok_bind]
  rw [scaleField_compute (v := mq)
    (by rw [getVal?_updateRec_ne _ _ _ _ (by decide),
            getVal?_updateRec_ne _ _ _ _ (by decide),
            getVal?_updateRec_ne _ _ _ _ (by decide)]; exact hmq)]
  simp only [ok_bind]
  rw [scaleField_compute (v := ts)
    (by rw [getVal?_updateRec_ne _ _ _ _ (by decide),
            getVal?_updateRec_ne _ _ _ _ (by decide),
            getVal?_updateRec_ne _ _ _ _ (by decide),
            getVal?_updateRec_ne _ _ _ _ (by decide)]; exact hts)]
  simp only [ok_bind]

end Tutorial

namespace Tutorial

theorem poolIds_length (pid m : Nat) : (poolIds pid m).length = m := by
  induction m generalizing pid with
  | zero => rfl
  | succ m ih => simp [poolIds, ih]

theorem poolIds_getD (pid : Nat) :
    ∀ m i, i < m → (poolIds pid m).getD i 0 = pid + i := by
  intro m
  induction m generalizing pid with
  | zero => intro i h; omega
  | succ m ih =>
    intro i h
    cases i with
    | zero => simp [poolIds]
    | succ i =>
      simp only [poolIds, List.getD_cons_succ]
      rw [ih (pid + 1) i (by omega)]
      omega

/-- If the query capability succeeds with a normalizable record on every ID
in `[pid, pid + m)`, the scan from `pid` performs those `m` iterations and
continues as the scan from `pid + m` with `m` fewer units of fuel; the
queried IDs and the accumulated records of the prefix are prepended. -/
theorem scanAux_segment (query : Nat → Except Exc Record)
    (recs nrecs : Nat → Record) :
    ∀ (m pid f : Nat),
      (∀ i, pid ≤ i → i < pid + m → query i = .ok (recs i)) →
      (∀ i, pid ≤ i → i < pid + m → normalize (recs i) = .ok (nrecs i)) →
      scanAux query (m + f) pid =
        (scanAux query f (pid + m)).map
          (fun tr =>
            (poolIds pid m ++ tr.1,
             match tr.2 with
             | .ok pools => .ok ((poolIds pid m).map nrecs ++ pools)
             | .error e => .error e)) := by
  intro m
  induction m with
  | zero =>
    intro pid f hq hn
    simp only [Nat.zero_add, Nat.add_zero, poolIds, List.nil_append,
      List.map_nil]
    cases h : scanAux query f pid with
    | none => rfl
    | some tr =>
      obtain ⟨t, res⟩ := tr
      cases res <;> simp
  | succ m ih =>
    intro pid f hq hn
    have hstep : m + 1 + f = (m + f) + 1 := by omega
    rw [hstep]
    simp only [scanAux, hq pid (le_refl pid) (by omega),
      hn pid (le_refl pid) (by omega)]
    have ih' := ih (pid + 1) f
      (fun i h1 h2 => hq i (by omega) (by omega))
      (fun i h1 h2 => hn i (by omega) (by omega))
    have hshift : pid + 1 + m = pid + (m + 1) := by omega
    rw [hshift] at ih'
    rw [ih']
    have hIds : poolIds pid (m + 1) = pid :: poolIds (pid + 1) m := rfl
    cases h : scanAux query f (pid + (m + 1)) with
    | none => rfl
    | some tr =>
      obtain ⟨t, res⟩ := tr
      cases res <;> simp [hIds]

/-- When `query pid` raises the not-found signal, one more iteration ends the
loop successfully with the accumulated records. -/
theorem scanAux_end_notFound {query : Nat → Except Exc Record} {pid : Nat}
    (h : query pid = .error .jsonRpc) (f : Nat) :
    scanAux query (f + 1) pid = some ([pid], .ok []) := by
  simp [scanAux, h]

/-- When `query pid` raises an exception that is not `JSONRPCException`, one
more iteration aborts the loop with that exception. -/
theorem scanAux_end_queryError {query : Nat → Except Exc Record} {pid : Nat}
    {e : Exc} (h : query pid = .error e) (he : e ≠ .jsonRpc) (f : Nat) :
    scanAux query (f + 1) pid = some ([pid], .error e) := by
  simp [scanAux, h, he]

/-- When `query pid` succeeds but normalization raises, one more iteration
aborts the loop with the normalization exception. -/
theorem scanAux_end_normError {query : Nat → Except Exc Record} {pid : Nat}
    {r : Record} {e : Exc} (h : query pid = .ok r)
    (hn : normalize r = .error e) (f : Nat) :
    scanAux query (f + 1) pid = some ([pid], .error e) := by
  simp [scanAux, h, hn, normalize_error_not_jsonRpc hn]

end Tutorial

namespace Tutorial

theorem poolIds_append (k : Nat) :
    ∀ m pid, poolIds pid (m + k) = poolIds pid m ++ poolIds (pid + m) k := by
  intro m
  induction m with
  | zero => intro pid; simp [poolIds]
  | succ m ih =>
    intro pid
    have h1 : m + 1 + k = (m + k) + 1 := by omega
    rw [h1]
    simp only [poolIds, ih (pid + 1), List.cons_append]
    have h2 : pid + 1 + m = pid + (m + 1) := by omega
    rw [h2]

theorem poolIds_concat (pid m : Nat) :
    poolIds pid (m + 1) = poolIds pid m ++ [pid + m] := by
  rw [poolIds_append 1 m pid]
  rfl

/-- A full run that ends in the designed not-found termination: `N` records
collected, `N + 1` queries issued. -/
theorem scan_run_notFound {query : Nat → Except Exc Record}
    {recs nrecs : Nat → Record} {N fuel : Nat}
    (hq : ∀ i, 1 ≤ i → i ≤ N → query i = .ok (recs i))
    (hn : ∀ i, 1 ≤ i → i ≤ N → normalize (recs i) = .ok (nrecs i))
    (hend : query (N + 1) = .error .jsonRpc)
    (hfuel : N + 1 ≤ fuel) :
    scanAux query fuel 1 =
      some (poolIds 1 (N + 1), .ok ((poolIds 1 N).map nrecs)) := by
  obtain ⟨f, rfl⟩ : ∃ f, fuel = N + (f + 1) := ⟨fuel - N - 1, by omega⟩
  rw [scanAux_segment query recs nrecs N 1 (f + 1)
        (fun i h1 h2 => hq i h1 (by omega))
        (fun i h1 h2 => hn i h1 (by omega))]
  rw [Nat.add_comm 1 N, scanAux_end_notFound hend f]
  simp [poolIds_concat, Nat.add_comm 1 N]

/-- A full run in which call `K` fails with an exception other than the
not-found signal: the scan aborts with that exception. -/
theorem scan_run_queryError {query : Nat → Except Exc Record}
    {recs nrecs : Nat → Record} {K fuel : Nat} {e : Exc}
    (hq : ∀ i, 1 ≤ i → i < K → query i = .ok (recs i))
    (hn : ∀ i, 1 ≤ i → i < K → normalize (recs i) = .ok (nrecs i))
    (hend : query K = .error e) (he : e ≠ .jsonRpc)
    (hK : 1 ≤ K) (hfuel : K ≤ fuel) :
    scanAux query fuel 1 = some (poolIds 1 K, .error e) := by
  obtain ⟨m, rfl⟩ : ∃ m, K = m + 1 := ⟨K - 1, by omega⟩
  obtain ⟨f, rfl⟩ : ∃ f, fuel = m + (f + 1) := ⟨fuel - m - 1, by omega⟩
  rw [scanAux_segment query recs nrecs m 1 (f + 1)
        (fun i h1 h2 => hq i h1 (by omega))
        (fun i h1 h2 => hn i h1 (by omega))]
  rw [Nat.add_comm 1 m, scanAux_end_queryError
        (show query (m + 1) = .error e from hend) he f]
  simp [poolIds_concat, Nat.add_comm 1 m]

/-- A full run in which call `K` returns a record that normalization rejects:
the scan aborts with the normalization exception. -/
theorem scan_run_normError {query : Nat → Except Exc Record}
    {recs nrecs : Nat → Record} {K fuel : Nat} {r : Record} {e : Exc}
    (hq : ∀ i, 1 ≤ i → i < K → query i = .ok (recs i))
    (hn : ∀ i, 1 ≤ i → i < K → normalize (recs i) = .ok (nrecs i))
    (hKq : query K = .ok r) (hKn : normalize r = .error e)
    (hK : 1 ≤ K) (hfuel : K ≤ fuel) :
    scanAux query fuel 1 = some (poolIds 1 K, .error e) := by
  obtain ⟨m, rfl⟩ : ∃ m, K = m + 1 := ⟨K - 1, by omega⟩
  obtain ⟨f, rfl⟩ : ∃ f, fuel = m + (f + 1) := ⟨fuel - m - 1, by omega⟩
  rw [scanAux_segment query recs nrecs m 1 (f + 1)
        (fun i h1 h2 => hq i h1 (by omega))
        (fun i h1 h2 => hn i h1 (by omega))]
  rw [Nat.add_comm 1 m, scanAux_end_normError
        (show query (m + 1) = .ok r from hKq) hKn f]
  simp [poolIds_concat, Nat.add_comm 1 m]

end Tutorial

namespace Tutorial

theorem normalize_exampleRaw : normalize exampleRaw = .ok exampleNormalized :=
  rfl

theorem parseFields_exampleRaw : parseFields exampleRaw = .ok exampleParsed :=
  rfl

theorem poolIds_map_getD (g : Nat → Record) :
    ∀ m pid i, i < m → ((poolIds pid m).map g).getD i [] = g (pid + i) := by
  intro m
  induction m with
  | zero => intro pid i h; omega
  | succ m ih =>
    intro pid i h
    cases i with
    | zero => simp [poolIds]
    | succ i =>
      simp only [poolIds, List.map_cons, List.getD_cons_succ]
      rw [ih (pid + 1) i (by omega)]
      have h2 : pid + 1 + i = pid + (i + 1) := by omega
      rw [h2]

/-- Claim C1: for a query capability that returns a (normalizable) pool
record for each ID `1..N` and fails with the not-found signal at ID `N+1`,
the scan returns a sequence of exactly `N` records, whose `i`-th element
(1-based) is the normalization of the record returned by `query(i)`; in
particular for `N = 0` it returns the empty sequence. -/
theorem scan_returns_normalized_records
    (query : Nat → Except Exc Record) (recs nrecs : Nat → Record)
    (N fuel : Nat)
    (hq : ∀ i, 1 ≤ i → i ≤ N → query i = .ok (recs i))
    (hn : ∀ i, 1 ≤ i → i ≤ N → normalize (recs i) = .ok (nrecs i))
    (hend : query (N + 1) = .error .jsonRpc)
    (hfuel : N + 1 ≤ fuel) :
    query_balanced_pool_data query fuel =
      some (.ok ((poolIds 1 N).map nrecs)) ∧
    ((poolIds 1 N).map nrecs).length = N ∧
    ∀ i, i < N → ((poolIds 1 N).map nrecs).getD i [] = nrecs (1 + i) := by
  refine ⟨?_, ?_, ?_⟩
  · unfold query_balanced_pool_data
    rw [scan_run_notFound hq hn hend hfuel]
    rfl
  · rw [List.length_map, poolIds_length]
  · intro i h
    exact poolIds_map_getD nrecs N 1 i h

theorem scan_returns_normalized_records_witness :
    query_balanced_pool_data (okThenNotFound exampleRaw 2) 3 =
      some (.ok [exampleNormalized, exampleNormalized]) := by
  have h := (scan_returns_normalized_records (okThenNotFound exampleRaw 2)
    (fun _ => exampleRaw) (fun _ => exampleNormalized) 2 3
    (fun i h1 h2 => by simp [okThenNotFound, h2])
    (fun i _ _ => normalize_exampleRaw)
    (by norm_num [okThenNotFound]) (by norm_num)).1
  exact h

/-- Claim C2: if the query capability succeeds with normalizable records on
calls `1..K-1` and fails on call `K` with an error that is not the not-found
signal, the scan propagates that error and in particular never returns a
partial `K-1`-element sequence. -/
theorem scan_propagates_other_error
    (query : Nat → Except Exc Record) (recs nrecs : Nat → Record)
    (K fuel : Nat) (e : Exc)
    (hq : ∀ i, 1 ≤ i → i < K → query i = .ok (recs i))
    (hn : ∀ i, 1 ≤ i → i < K → normalize (recs i) = .ok (nrecs i))
    (hend : query K = .error e) (he : e ≠ .jsonRpc)
    (hK : 1 ≤ K) (hfuel : K ≤ fuel) :
    query_balanced_pool_data query fuel = some (.error e) ∧
    ∀ pools : List Record,
      query_balanced_pool_data query fuel ≠ some (.ok pools) := by
  have h : query_balanced_pool_data query fuel = some (.error e) := by
    unfold query_balanced_pool_data
    rw [scan_run_queryError hq hn hend he hK hfuel]
    rfl
  refine ⟨h, ?_⟩
  intro pools hcon
  rw [h] at hcon
  simp at hcon

theorem scan_propagates_other_error_witness :
    query_balanced_pool_data (okThenFail exampleRaw 2 (.other "network")) 3 =
      some (.error (.other "network")) := by
  have h := (scan_propagates_other_error
    (okThenFail exampleRaw 2 (.other "network"))
    (fun _ => exampleRaw) (fun _ => exampleNormalized) 3 3 (.other "network")
    (fun i h1 h2 => by simp [okThenFail]; omega)
    (fun i _ _ => normalize_exampleRaw)
    (by norm_num [okThenFail]) (by simp) (by norm_num) (by norm_num)).1
  exact h

/-- Claim C8: in a run that collects records for IDs `1..N` and stops at the
not-found signal for ID `N+1`, the query capability is invoked on the exact
ID sequence `1, 2, ..., N+1` (the `k`-th invocation uses pool ID `k`, no ID
skipped or repeated), and a run returning `N` records makes exactly `N+1`
invocations.  Sequencing is strict in the model: `scanAux` only issues the
query for `pid + 1` inside the continuation of the completed query for
`pid`. -/
theorem scan_queries_sequential_ids
    (query : Nat → Except Exc Record) (recs nrecs : Nat → Record)
    (N fuel : Nat)
    (hq : ∀ i, 1 ≤ i → i ≤ N → query i = .ok (recs i))
    (hn : ∀ i, 1 ≤ i → i ≤ N → normalize (recs i) = .ok (nrecs i))
    (hend : query (N + 1) = .error .jsonRpc)
    (hfuel : N + 1 ≤ fuel) :
    queriedIds query fuel = some (poolIds 1 (N + 1)) ∧
    (poolIds 1 (N + 1)).length = N + 1 ∧
    (∀ i, i < N + 1 → (poolIds 1 (N + 1)).getD i 0 = 1 + i) ∧
    query_balanced_pool_data query fuel =
      some (.ok ((poolIds 1 N).map nrecs)) ∧
    (poolIds 1 (N + 1)).length = ((poolIds 1 N).map nrecs).length + 1 := by
  refine ⟨?_, poolIds_length 1 (N + 1), ?_, ?_, ?_⟩
  · unfold queriedIds
    rw [scan_run_notFound hq hn hend hfuel]
    rfl
  · intro i h
    exact poolIds_getD 1 (N + 1) i h
  · unfold query_balanced_pool_data
    rw [scan_run_notFound hq hn hend hfuel]
    rfl
  · rw [List.length_map, poolIds_length, poolIds_length]

theorem scan_queries_sequential_ids_witness :
    queriedIds (okThenNotFound exampleRaw 2) 5 = some [1, 2, 3] := by
  have h := (scan_queries_sequential_ids (okThenNotFound exampleRaw 2)
    (fun _ => exampleRaw) (fun _ => exampleNormalized) 2 5
    (fun i h1 h2 => by simp [okThenNotFound, h2])
    (fun i _ _ => normalize_exampleRaw)
    (by norm_num [okThenNotFound]) (by norm_num)).1
  exact h

end Tutorial

namespace Tutorial

/-- Claim C3: on a record whose `0x`-prefixed string fields all parse, the
hex-parse step replaces each field whose value is a string beginning with
`0x` by its base-16 integer parse and leaves every other field (strings
without the prefix, non-strings) unchanged, preserving keys and order. -/
theorem hex_parse_step_spec (r : Record) (hg : goodHex r = true) :
    parseFields r = .ok (r.map fun p => (p.1, hexParseField p.2)) ∧
    (∀ s n, startsWith0x s = true → parseHex0x s = some n →
      hexParseField (.vStr s) = .vInt (n : Int)) ∧
    (∀ v : Value, (∀ s, v = .vStr s → startsWith0x s = false) →
      hexParseField v = v) := by
  refine ⟨parseFields_ok_of_goodHex hg, ?_, ?_⟩
  · intro s n h0 hp
    simp [hexParseField, h0, hp]
  · intro v hv
    match v with
    | .vStr s => simp [hexParseField, hv s rfl]
    | .vInt n => rfl
    | .vRat q => rfl

theorem hex_parse_step_spec_witness :
    parseFields exampleRaw = .ok exampleParsed :=
  (hex_parse_step_spec exampleRaw rfl).1

/-- Claim C4: when the post-hex-parse record holds integers `bd`, `qd`, `b`,
`q`, `p`, `mq`, `ts` in its `base_decimals`, `quote_decimals`, `base`,
`quote`, `price`, `min_quote`, `total_supply` fields, normalization succeeds
with `precision = (qd - bd) + 18` and divides `base` by `10^bd`, `quote`,
`min_quote` and `total_supply` by `10^qd`, and `price` by `10^precision`. -/
theorem normalize_scaling_spec
    (r r1 : Record) (bd qd b q p mq ts : ℤ)
    (hpf : parseFields r = .ok r1)
    (hbd : getVal? r1 "base_decimals" = some (.vInt bd))
    (hqd : getVal? r1 "quote_decimals" = some (.vInt qd))
    (hb : getVal? r1 "base" = some (.vInt b))
    (hq : getVal? r1 "quote" = some (.vInt q))
    (hp : getVal? r1 "price" = some (.vInt p))
    (hmq : getVal? r1 "min_quote" = some (.vInt mq))
    (hts : getVal? r1 "total_supply" = some (.vInt ts)) :
    ∃ R, normalize r = .ok R ∧
      getVal? R "base" = some (.vRat ((b : ℚ) / (10:ℚ) ^ bd)) ∧
      getVal? R "quote" = some (.vRat ((q : ℚ) / (10:ℚ) ^ qd)) ∧
      getVal? R "price" =
        some (.vRat ((p : ℚ) / (10:ℚ) ^ ((qd - bd) + 18))) ∧
      getVal? R "min_quote" = some (.vRat ((mq : ℚ) / (10:ℚ) ^ qd)) ∧
      getVal? R "total_supply" = some (.vRat ((ts : ℚ) / (10:ℚ) ^ qd)) := by
  refine ⟨_, normalize_compute hpf hbd hqd hb hq hp hmq hts,
    ?_, ?_, ?_, ?_, ?_⟩
  · rw [getVal?_updateRec_ne _ _ _ _ (by decide),
        getVal?_updateRec_ne _ _ _ _ (by decide),
        getVal?_updateRec_ne _ _ _ _ (by decide),
        getVal?_updateRec_ne _ _ _ _ (by decide),
        getVal?_updateRec_self]
  · rw [getVal?_updateRec_ne _ _ _ _ (by decide),
        getVal?_updateRec_ne _ _ _ _ (by decide),
        getVal?_updateRec_ne _ _ _ _ (by decide),
        getVal?_updateRec_self]
  · rw [getVal?_updateRec_ne _ _ _ _ (by decide),
        getVal?_updateRec_ne _ _ _ _ (by decide),
        getVal?_updateRec_self]
  · rw [getVal?_updateRec_ne _ _ _ _ (by decide),
        getVal?_updateRec_self]
  · rw [getVal?_updateRec_self]

theorem normalize_scaling_spec_witness :
    ∃ R, normalize exampleRaw = .ok R ∧
      getVal? R "base" =
        some (.vRat (((2739005184334618003584822 : ℤ) : ℚ) /
          (10:ℚ) ^ (18:ℤ))) ∧
      getVal? R "quote" =
        some (.vRat (((558656302488526822979912 : ℤ) : ℚ) /
          (10:ℚ) ^ (18:ℤ))) ∧
      getVal? R "price" =
        some (.vRat (((203963214704261421 : ℤ) : ℚ) /
          (10:ℚ) ^ (((18:ℤ) - 18) + 18))) ∧
      getVal? R "min_quote" =
        some (.vRat (((10000000000000000000 : ℤ) : ℚ) /
          (10:ℚ) ^ (18:ℤ))) ∧
      getVal? R "total_supply" =
        some (.vRat (((1055697505245356868084886 : ℤ) : ℚ) /
          (10:ℚ) ^ (18:ℤ))) :=
  normalize_scaling_spec exampleRaw exampleParsed 18 18
    2739005184334618003584822 558656302488526822979912
    203963214704261421 10000000000000000000 1055697505245356868084886
    parseFields_exampleRaw rfl rfl rfl rfl rfl rfl rfl

/-- Claim C5: on the worked example from the source, with
`quote_decimals = 18` the raw `min_quote` hex string `"0x8ac7230489e80000"`
(value `10^19`) normalizes to exactly `10`, and with
`base_decimals = quote_decimals = 18` the raw `price` hex string
`"0x2d49f768fb1b92d"` normalizes to exactly
`int("2d49f768fb1b92d", 16) / 10^18 = 203963214704261421 / 10^18`
(≈ 0.20396321470426143). -/
theorem normalize_example_values :
    normalize exampleRaw = .ok exampleNormalized ∧
    parseHex0x "0x8ac7230489e80000" = some 10000000000000000000 ∧
    getVal? exampleNormalized "min_quote" = some (.vRat 10) ∧
    parseHex0x "0x2d49f768fb1b92d" = some 203963214704261421 ∧
    getVal? exampleNormalized "price" =
      some (.vRat (((203963214704261421 : ℤ) : ℚ) / (10:ℚ) ^ (18:ℤ))) := by
  refine ⟨normalize_exampleRaw, rfl, ?_, rfl, rfl⟩
  rw [show getVal? exampleNormalized "min_quote" =
    some (.vRat (((10000000000000000000 : ℤ) : ℚ) / (10:ℚ) ^ (18:ℤ)))
    from rfl]
  simp only [Option.some.injEq, Value.vRat.injEq]
  norm_num

end Tutorial

namespace Tutorial

theorem keys_map_hex (r : Record) :
    (r.map fun p => (p.1, hexParseField p.2)).map Prod.fst =
      r.map Prod.fst := by
  induction r with
  | nil => rfl
  | cons p r ih => simp [ih]

theorem normalize_malformed_error (r : Record)
    (hbad : goodHex r = false ∨ getVal? r "base_decimals" = none ∨
      getVal? r "quote_decimals" = none) :
    ∃ e, normalize r = .error e := by
  cases hres : normalize r with
  | error e => exact ⟨e, rfl⟩
  | ok R =>
    exfalso
    obtain ⟨r1, bd, qd, d, s, prec, R1, R2, R3, R4, hpf, hbd, hqd, -, -, -,
      -, -, -, -, -⟩ := normalize_ok_inv hres
    obtain ⟨hg, hmap⟩ := parseFields_ok_inv hpf
    rcases hbad with h | h | h
    · rw [hg] at h
      simp at h
    · have hv := getItem_ok_inv hbd
      rw [hmap, getVal?_map, h] at hv
      simp at hv
    · have hv := getItem_ok_inv hqd
      rw [hmap, getVal?_map, h] at hv
      simp at hv

/-- Claim C6: if the query capability returns a malformed record — one with
a `0x`-prefixed string field that does not parse as base-16, or one missing
the `base_decimals` or `quote_decimals` field — then normalization raises,
the exception propagates out of the scan, and no record is skipped or
recovered: the scan's outcome is that exception. -/
theorem malformed_record_aborts_scan
    (query : Nat → Except Exc Record) (recs nrecs : Nat → Record)
    (K fuel : Nat) (r : Record)
    (hq : ∀ i, 1 ≤ i → i < K → query i = .ok (recs i))
    (hn : ∀ i, 1 ≤ i → i < K → normalize (recs i) = .ok (nrecs i))
    (hKq : query K = .ok r)
    (hbad : goodHex r = false ∨ getVal? r "base_decimals" = none ∨
      getVal? r "quote_decimals" = none)
    (hK : 1 ≤ K) (hfuel : K ≤ fuel) :
    ∃ e, normalize r = .error e ∧
      query_balanced_pool_data query fuel = some (.error e) := by
  obtain ⟨e, he⟩ := normalize_malformed_error r hbad
  refine ⟨e, he, ?_⟩
  unfold query_balanced_pool_data
  rw [scan_run_normError hq hn hKq he hK hfuel]
  rfl

theorem malformed_record_aborts_scan_witness :
    normalize badHexRecord = .error .valueError ∧
    query_balanced_pool_data (okThenNotFound badHexRecord 1) 1 =
      some (.error .valueError) := by
  obtain ⟨e, h1, h2⟩ := malformed_record_aborts_scan
    (okThenNotFound badHexRecord 1)
    (fun _ => badHexRecord) (fun _ => badHexRecord) 1 1 badHexRecord
    (fun i h1 h2 => absurd h2 (by omega))
    (fun i h1 h2 => absurd h2 (by omega))
    (by norm_num [okThenNotFound]) (Or.inl rfl) (le_refl 1) (le_refl 1)
  have hval : normalize badHexRecord = .error .valueError := rfl
  rw [hval] at h1
  simp only [Except.error.injEq] at h1
  subst h1
  exact ⟨hval, h2⟩

/-- Claim C7: for every record that normalization processes successfully,
the key list of the normalized record equals the key list of the raw record
(in particular no `pool_id` key is added), every field other than `base`,
`quote`, `price`, `min_quote`, `total_supply` keeps its post-hex-parse
value, and in particular `base_decimals` and `quote_decimals` equal their
post-hex-parse values (they are not divided by any scaling factor). -/
theorem normalize_frame (r R : Record) (h : normalize r = .ok R) :
    R.map Prod.fst = r.map Prod.fst ∧
    (∀ k : String,
      k ∉ (["base", "quote", "price", "min_quote", "total_supply"] :
        List String) →
      getVal? R k = (getVal? r k).map hexParseField) ∧
    getVal? R "base_decimals" =
      (getVal? r "base_decimals").map hexParseField ∧
    getVal? R "quote_decimals" =
      (getVal? r "quote_decimals").map hexParseField ∧
    ("pool_id" ∉ r.map Prod.fst → "pool_id" ∉ R.map Prod.fst) := by
  obtain ⟨r1, bd, qd, d, s, prec, R1, R2, R3, R4, hpf, hbd, hqd, -, -, -,
    h7, h8, h9, h10, h11⟩ := normalize_ok_inv h
  obtain ⟨v1, p1, w1, g1, -, -, e1⟩ := scaleField_ok_inv h7
  obtain ⟨v2, p2, w2, g2, -, -, e2⟩ := scaleField_ok_inv h8
  obtain ⟨v3, p3, w3, g3, -, -, e3⟩ := scaleField_ok_inv h9
  obtain ⟨v4, p4, w4, g4, -, -, e4⟩ := scaleField_ok_inv h10
  obtain ⟨v5, p5, w5, g5, -, -, e5⟩ := scaleField_ok_inv h11
  obtain ⟨hg, hmap⟩ := parseFields_ok_inv hpf
  have hkeys : R.map Prod.fst = r.map Prod.fst := by
    rw [e5, keys_updateRec _ ⟨_, getItem_ok_inv g5⟩,
        e4, keys_updateRec _ ⟨_, getItem_ok_inv g4⟩,
        e3, keys_updateRec _ ⟨_, getItem_ok_inv g3⟩,
        e2, keys_updateRec _ ⟨_, getItem_ok_inv g2⟩,
        e1, keys_updateRec _ ⟨_, getItem_ok_inv g1⟩,
        hmap, keys_map_hex]
  have hlk : ∀ k : String, k ≠ "base" → k ≠ "quote" → k ≠ "price" →
      k ≠ "min_quote" → k ≠ "total_supply" →
      getVal? R k = (getVal? r k).map hexParseField := by
    intro k n1 n2 n3 n4 n5
    rw [e5, getVal?_updateRec_ne _ _ _ _ n5,
        e4, getVal?_updateRec_ne _ _ _ _ n4,
        e3, getVal?_updateRec_ne _ _ _ _ n3,
        e2, getVal?_updateRec_ne _ _ _ _ n2,
        e1, getVal?_updateRec_ne _ _ _ _ n1, hmap, getVal?_map]
  refine ⟨hkeys, ?_, ?_, ?_, ?_⟩
  · intro k hk
    simp only [List.mem_cons, List.not_mem_nil, or_false, not_or] at hk
    exact hlk k hk.1 hk.2.1 hk.2.2.1 hk.2.2.2.1 hk.2.2.2.2
  · exact hlk "base_decimals" (by decide) (by decide) (by decide) (by decide)
      (by decide)
  · exact hlk "quote_decimals" (by decide) (by decide) (by decide) (by decide)
      (by decide)
  · intro hmem
    rw [hkeys]
    exact hmem

theorem normalize_frame_witness :
    exampleNormalized.map Prod.fst = exampleRaw.map Prod.fst ∧
    getVal? exampleNormalized "base_decimals" =
      (getVal? exampleRaw "base_decimals").map hexParseField ∧
    getVal? exampleNormalized "name" =
      (getVal? exampleRaw "name").map hexParseField := by
  have h := normalize_frame exampleRaw exampleNormalized normalize_exampleRaw
  exact ⟨h.1, h.2.2.1, h.2.1 "name" (by decide)⟩

/-- Claim C9: the scan keeps no state between invocations and caches
nothing: its result and its sequence of issued queries are functions of the
query capability alone, so two runs against pointwise-equal (deterministic)
capabilities issue the same queries and return equal results.  (Per spec
§1, progress printing is out of scope; the model's observables are the
issued queries and the returned value.) -/
theorem scan_stateless_deterministic
    (q1 q2 : Nat → Except Exc Record) (h : ∀ i, q1 i = q2 i) :
    (∀ fuel, query_balanced_pool_data q1 fuel =
      query_balanced_pool_data q2 fuel) ∧
    (∀ fuel, queriedIds q1 fuel = queriedIds q2 fuel) := by
  have hq : q1 = q2 := funext h
  subst hq
  exact ⟨fun _ => rfl, fun _ => rfl⟩

theorem scan_stateless_deterministic_witness :
    query_balanced_pool_data emptyQueryA 2 =
      query_balanced_pool_data emptyQueryB 2 ∧
    queriedIds emptyQueryA 2 = queriedIds emptyQueryB 2 := by
  have h := scan_stateless_deterministic emptyQueryA emptyQueryB
    (fun i => by
      unfold emptyQueryA emptyQueryB
      rw [if_neg (by omega)])
  exact ⟨h.1 2, h.2 2⟩

end Tutorial

namespace Tutorial

theorem getVal?_mem {r : Record} {k : String} {v : Value}
    (h : getVal? r k = some v) : (k, v) ∈ r := by
  induction r with
  | nil => simp [getVal?] at h
  | cons p r ih =>
    obtain ⟨k', v'⟩ := p
    by_cases h2 : k' = k
    · subst h2
      simp [getVal?] at h
      subst h
      exact List.mem_cons_self _ _
    · simp only [getVal?, if_neg h2] at h
      exact List.mem_cons_of_mem _ (ih h)

theorem pySub_ok_no_str {a b d : Value} (h : pySub a b = .ok d) :
    (∀ s, a ≠ .vStr s) ∧ (∀ s, b ≠ .vStr s) := by
  refine ⟨?_, ?_⟩ <;> intro s hs <;> subst hs
  · cases b <;> simp [pySub, Value.toRat?] at h
  · cases a <;> simp [pySub, Value.toRat?] at h

/-- Claim C10: implicit precondition at the public interface.  Over the
interface's raw value domain (strings and `int`s), normalization succeeds
only when the `base_decimals` and `quote_decimals` values are `0x`-prefixed
hex-parseable strings or already integers; and when a decimals value is a
string without the `0x` prefix (e.g. `"18"`), it is left unparsed, the
precision computation fails, and the error propagates so the whole scan
aborts. -/
theorem decimals_precondition (r : Record) (hw : wellTyped r = true) :
    (∀ R, normalize r = .ok R →
      ∀ k, (k = "base_decimals" ∨ k = "quote_decimals") →
        ∃ v, getVal? r k = some v ∧
          ((∃ n, v = .vInt n) ∨
           (∃ s, v = .vStr s ∧ startsWith0x s = true ∧
             (parseHex0x s).isSome = true))) ∧
    (∀ s, getVal? r "base_decimals" = some (.vStr s) →
      startsWith0x s = false →
      ∃ e, normalize r = .error e ∧
        ∀ query fuel, query 1 = .ok r → 1 ≤ fuel →
          query_balanced_pool_data query fuel = some (.error e)) := by
  simp only [wellTyped, List.all_eq_true] at hw
  constructor
  · intro R hok k hk
    obtain ⟨r1, bd, qd, d, s, prec, R1, R2, R3, R4, hpf, hbd, hqd, hsub, -,
      -, -, -, -, -, -⟩ := normalize_ok_inv hok
    obtain ⟨hg, hmap⟩ := parseFields_ok_inv hpf
    have hnostr := pySub_ok_no_str hsub
    have hval : ∃ w, getVal? r k = some w ∧
        ∀ s0, hexParseField w ≠ .vStr s0 := by
      rcases hk with rfl | rfl
      · have hv := getItem_ok_inv hbd
        rw [hmap, getVal?_map] at hv
        cases hv0 : getVal? r "base_decimals" with
        | none => rw [hv0] at hv; simp at hv
        | some w =>
          rw [hv0] at hv
          simp only [Option.map_some', Option.some.injEq] at hv
          exact ⟨w, rfl, by rw [hv]; exact hnostr.2⟩
      · have hv := getItem_ok_inv hqd
        rw [hmap, getVal?_map] at hv
        cases hv0 : getVal? r "quote_decimals" with
        | none => rw [hv0] at hv; simp at hv
        | some w =>
          rw [hv0] at hv
          simp only [Option.map_some', Option.some.injEq] at hv
          exact ⟨w, rfl, by rw [hv]; exact hnostr.1⟩
    obtain ⟨w, hw0, hhex⟩ := hval
    refine ⟨w, hw0, ?_⟩
    have hmem := hw _ (getVal?_mem hw0)
    match w, hmem, hhex with
    | .vInt n, _, _ => exact Or.inl ⟨n, rfl⟩
    | .vStr s', _, hhex =>
      refine Or.inr ⟨s', rfl, ?_⟩
      by_cases h0 : startsWith0x s'
      · refine ⟨h0, ?_⟩
        cases hp : parseHex0x s' with
        | some n => simp
        | none =>
          exfalso
          exact hhex s' (by simp [hexParseField, h0, hp])
      · exfalso
        exact hhex s' (by simp [hexParseField, h0])
  · intro s hbdv hs
    have hne : ∀ R, normalize r ≠ .ok R := by
      intro R hok
      obtain ⟨r1, bd, qd, d, sv, prec, R1, R2, R3, R4, hpf, hbd, hqd, hsub,
        -, -, -, -, -, -, -⟩ := normalize_ok_inv hok
      obtain ⟨hg, hmap⟩ := parseFields_ok_inv hpf
      have hv := getItem_ok_inv hbd
      rw [hmap, getVal?_map, hbdv] at hv
      simp only [Option.map_some', Option.some.injEq] at hv
      have hbdstr : bd = .vStr s := by
        rw [← hv]
        simp [hexParseField, hs]
      exact (pySub_ok_no_str hsub).2 s (hbdstr ▸ rfl)
    cases hres : normalize r with
    | ok R => exact absurd hres (hne R)
    | error e =>
      refine ⟨e, rfl, ?_⟩
      intro query fuel hq1 hfuel
      obtain ⟨f, rfl⟩ : ∃ f, fuel = f + 1 := ⟨fuel - 1, by omega⟩
      unfold query_balanced_pool_data
      rw [scanAux_end_normError hq1 hres f]
      rfl

theorem decimals_precondition_witness :
    wellTyped strDecimalsRecord = true ∧
    normalize strDecimalsRecord = .error .typeError ∧
    query_balanced_pool_data (okThenNotFound strDecimalsRecord 1) 1 =
      some (.error .typeError) := by
  obtain ⟨e, he, hscan⟩ :=
    (decimals_precondition strDecimalsRecord rfl).2 "18" rfl rfl
  have hval : normalize strDecimalsRecord = .error .typeError := rfl
  rw [hval] at he
  simp only [Except.error.injEq] at he
  subst he
  exact ⟨rfl, hval, hscan (okThenNotFound strDecimalsRecord 1) 1
    (by norm_num [okThenNotFound]) (le_refl 1)⟩

end Tutorial
